import Mathlib

/-!
Shallow embedding of scr/pbf2html_station_users.py: a batch utility that
decodes vector-tile files, extracts station features (name and passenger
count), reprojects tile-local coordinates to WGS84 longitude/latitude, and
sizes map markers by passenger volume.

Modelling conventions:
- Python floating-point arithmetic is modelled over the reals.
- The decoded tile (produced by the external mapbox_vector_tile.decode) is
  modelled as a list of layers in dictionary-value order; a decode failure
  (DecodeError, caught by the try/except in read_pbf) is the failure
  constructor of DecodeOutcome.
- A Python exception escaping to the try/except of read_pbf is modelled as
  the Option value none; within the feature loop an exception (for example
  an index error on an empty LineString coordinate list, or a division by a
  zero extent) aborts the whole file, which the embedding propagates as none.
- Python str.split, int() and str.endswith are modelled by character-list
  recursion so that concrete inputs evaluate inside the kernel.
-/

namespace PbfStationUsers

open Real

/-- A property value attached to a feature: the decoded tiles carry string
attributes (station names) and integer attributes (passenger counts). -/
inductive PropValue where
  | str (s : String)
  | num (n : ℤ)
deriving DecidableEq, Repr

/-- The properties mapping of a feature, in insertion order (Python dict). -/
abbrev Props := List (String × PropValue)

/-- Feature geometry as produced by the tile decoder: the script reads
geom['type'] and geom['coordinates'].  Coordinates are tile-local integer
pairs.  Geometry types other than Point/LineString/Polygon are kept only as
their type name (the script just prints it in a warning). -/
inductive Geometry where
  | point (c : ℤ × ℤ)
  | lineString (cs : List (ℤ × ℤ))
  | polygon (rings : List (List (ℤ × ℤ)))
  | other (typeName : String)
deriving DecidableEq, Repr

/-- One decoded feature: a properties mapping and a geometry. -/
structure Feature where
  properties : Props
  geometry : Geometry
deriving DecidableEq, Repr

/-- One decoded layer: its extent and its feature list. -/
structure Layer where
  extent : ℤ
  features : List Feature
deriving DecidableEq, Repr

/-- Outcome of mapbox_vector_tile.decode on a file's bytes: either an
exception (DecodeError or any read failure), or a tile, i.e. the layers in
dictionary-value order (an empty tile decodes to the empty list). -/
inductive DecodeOutcome where
  | failure
  | success (layers : List Layer)
deriving DecidableEq, Repr

/-- One extracted station record (the dict appended to `features` at lines
55-61 of the script): the station name, the passenger count, and the
WGS84 location Point(lon, lat). -/
structure StationRecord where
  name : PropValue
  passengers : PropValue
  location : ℝ × ℝ

/-- math.degrees: radians to degrees. -/
noncomputable def degrees (r : ℝ) : ℝ := r * 180 / π

/-- tile_to_latlon (lines 10-16): slippy-map tile coordinates to WGS84
longitude/latitude.  `n = 2.0 ** z`, `lon = x / n * 360 - 180`,
`lat = degrees(atan(sinh(pi * (1 - 2 * y / n))))`. -/
noncomputable def tile_to_latlon (x y : ℝ) (z : ℕ) : ℝ × ℝ :=
  let n : ℝ := 2 ^ z
  let lon_deg : ℝ := x / n * 360 - 180
  let lat_rad : ℝ := Real.arctan (Real.sinh (π * (1 - 2 * y / n)))
  let lat_deg : ℝ := degrees lat_rad
  (lon_deg, lat_deg)

/-- The transform call at line 54 of the script:
tile_to_latlon(x + coords[0]/extent, y + coords[1]/extent, z). -/
noncomputable def feature_location (x y extent : ℤ) (z : ℕ) (c : ℤ × ℤ) : ℝ × ℝ :=
  tile_to_latlon ((x : ℝ) + (c.1 : ℝ) / (extent : ℝ)) ((y : ℝ) + (c.2 : ℝ) / (extent : ℝ)) z

/-- Result of the geometry switch at lines 43-52: a usable coordinate pair,
a skip (unsupported type: warning printed, `continue`), or an exception
(an index error on empty coordinate data, which aborts the file). -/
inductive CoordResult where
  | ok (c : ℤ × ℤ)
  | skip
  | exn
deriving DecidableEq, Repr

/-- The geometry switch at lines 43-52 of the script: LineString uses
coordinates[0], Polygon uses coordinates[0][0], Point uses coordinates
directly, and any other type prints a warning and continues.  Indexing an
empty list raises, which the general handler turns into a failed file. -/
def extract_coords : Geometry → CoordResult
  | .point c => .ok c
  | .lineString [] => .exn
  | .lineString (c :: _) => .ok c
  | .polygon [] => .exn
  | .polygon ([] :: _) => .exn
  | .polygon ((c :: _) :: _) => .ok c
  | .other _ => .skip

/-- The feature loop at lines 35-61: keep a feature only when its
properties contain 'S12_001_ja'; read passengers from 'S12_009' with
default 0; reduce the geometry to one local coordinate; transform it with
tile_to_latlon.  An exception inside the loop (empty coordinate data, or a
zero extent making the division raise) aborts the whole file (none). -/
noncomputable def read_features (x y extent : ℤ) (z : ℕ) : List Feature → Option (List StationRecord)
  | [] => some []
  | f :: fs =>
    match f.properties.lookup "S12_001_ja" with
    | none => read_features x y extent z fs
    | some nm =>
      match extract_coords f.geometry with
      | .exn => none
      | .skip => read_features x y extent z fs
      | .ok c =>
        if extent = 0 then none
        else
          match read_features x y extent z fs with
          | none => none
          | some rest =>
            some ({ name := nm,
                    passengers := (f.properties.lookup "S12_009").getD (.num 0),
                    location := feature_location x y extent z c } :: rest)

/-- Python str.split with a one-character separator, on character lists:
"".split(sep) gives [''], and separators delimit (possibly empty) groups. -/
def splitOnChar (sep : Char) : List Char → List (List Char)
  | [] => [[]]
  | c :: rest =>
    match splitOnChar sep rest with
    | [] => if c = sep then [[], []] else [[c]]
    | g :: gs => if c = sep then [] :: g :: gs else (c :: g) :: gs

/-- Python int() on a digit string (no sign): fails on the empty string or
on any non-digit character. -/
def parseNat? : List Char → Option ℕ
  | [] => none
  | ds => ds.foldl
      (fun acc c => acc.bind fun n => if c.isDigit then some (n * 10 + (c.toNat - '0'.toNat)) else none)
      (some 0)

/-- Python int(): an optional sign followed by digits. -/
def parseInt? : List Char → Option ℤ
  | '-' :: ds => (parseNat? ds).map fun n => -(n : ℤ)
  | '+' :: ds => (parseNat? ds).map fun n => (n : ℤ)
  | ds => (parseNat? ds).map fun n => (n : ℤ)

/-- Lines 31-33 of the script: split the file name on '_', parse
parts[-2] as x and parts[-1].split('.')[0] as y with int().  Any failure
(too few parts, or a non-numeric segment) raises in Python and is caught by
the general handler, so it is modelled as none. -/
def parse_tile_xy (fileName : String) : Option (ℤ × ℤ) :=
  let parts := splitOnChar '_' fileName.toList
  match parts.reverse with
  | ys :: xs :: _ =>
    match parseInt? xs, parseInt? ((splitOnChar '.' ys).headI) with
    | some x, some y => some (x, y)
    | _, _ => none
  | _ => none

/-- read_pbf (lines 18-67): decode the bytes (DecodeError caught: none);
an empty tile is reported as none; take the first layer of the tile; parse
x and y from the file name with zoom fixed to 15; run the feature loop.
Every exception is caught by the enclosing try/except and becomes none. -/
noncomputable def read_pbf (fileName : String) (d : DecodeOutcome) : Option (List StationRecord) :=
  match d with
  | .failure => none
  | .success [] => none
  | .success (layer :: _) =>
    match parse_tile_xy fileName with
    | none => none
    | some (x, y) => read_features x y layer.extent 15 layer.features

/-- Python str.endswith('.pbf') on a file name. -/
def is_pbf_name (name : String) : Bool :=
  (String.toList ".pbf").isSuffixOf name.toList

/-- load_all_pbf_files (lines 69-88): walk the directory listing (a list of
file name / decode outcome pairs), keep names ending in '.pbf', call
read_pbf on each and concatenate the non-null results in listing order;
also count the matching files (`file_count`).  Returns the collection and
the count. -/
noncomputable def load_all_pbf_files : List (String × DecodeOutcome) → List StationRecord × ℕ
  | [] => ([], 0)
  | (name, d) :: rest =>
    let acc := load_all_pbf_files rest
    if is_pbf_name name then
      match read_pbf name d with
      | some features => (features ++ acc.1, acc.2 + 1)
      | none => (acc.1, acc.2 + 1)
    else acc

/-- The record produced for one feature when it is kept, and none when the
feature is dropped (no name key, or an unsupported geometry type): the
filtering rule of the feature loop, used to state order preservation. -/
noncomputable def kept_record (x y extent : ℤ) (z : ℕ) (f : Feature) : Option StationRecord :=
  match f.properties.lookup "S12_001_ja" with
  | none => none
  | some nm =>
    match extract_coords f.geometry with
    | .ok c => some { name := nm,
                      passengers := (f.properties.lookup "S12_009").getD (.num 0),
                      location := feature_location x y extent z c }
    | _ => none

/-- min of the passenger-count series (line 94); a Python min over a
non-empty series. -/
def min_passengers : List ℚ → ℚ
  | [] => 0
  | p :: ps => ps.foldl min p

/-- max of the passenger-count series (line 95). -/
def max_passengers : List ℚ → ℚ
  | [] => 0
  | p :: ps => ps.foldl max p

/-- Line 101 of the script: size = 5 + (p - min) / (max - min) * 15. -/
def marker_size (minP maxP p : ℚ) : ℚ := 5 + (p - minP) / (maxP - minP) * 15

/-- The marker radii create_map computes for a collection with the given
passenger counts (lines 94-101). -/
def marker_sizes (counts : List ℚ) : List ℚ :=
  counts.map (marker_size (min_passengers counts) (max_passengers counts))

/-- C4: read_pbf never raises to its caller: decode failure, an empty
decoded tile, and a file name not matching the expected underscore
pattern all produce the null result (the file is skipped), never a
propagated exception. -/
theorem read_pbf_never_raises (fileName : String) (d : DecodeOutcome)
    (h : d = .failure ∨ d = .success [] ∨ parse_tile_xy fileName = none) :
    read_pbf fileName d = none := by
  rcases h with h | h | h
  · rw [h]; rfl
  · rw [h]; rfl
  · cases d with
    | failure => rfl
    | success layers =>
      cases layers with
      | nil => rfl
      | cons layer rest => simp [read_pbf, h]

/-- Witness for read_pbf_never_raises at a concrete input: a file whose
name has no underscore-delimited x/y segments is skipped as null. -/
theorem read_pbf_never_raises_witness :
    read_pbf "nounderscore.pbf" (.success [{ extent := 4096, features := [] }]) = none :=
  read_pbf_never_raises "nounderscore.pbf" _ (Or.inr (Or.inr (by decide)))

/-- C8: only the first layer of a successfully decoded tile is used:
read_pbf gives the same result whether or not further layers follow the
first, so features in other layers never contribute records. -/
theorem only_first_layer_used (fileName : String) (layer : Layer) (rest : List Layer) :
    read_pbf fileName (.success (layer :: rest)) = read_pbf fileName (.success [layer]) := rfl

/-- C6: the tile coordinate is derived from the file name by splitting on
underscores (second-to-last segment is x, last segment with the trailing
extension stripped is y), and the zoom passed to the feature loop is the
fixed constant 15 irrespective of name and content. -/
theorem filename_tile_xy_fixed_zoom :
    (∀ (fileName : String) (layer : Layer) (rest : List Layer) (x y : ℤ),
        parse_tile_xy fileName = some (x, y) →
        read_pbf fileName (.success (layer :: rest))
          = read_features x y layer.extent 15 layer.features)
    ∧ parse_tile_xy "station_users_123_456.pbf" = some (123, 456)
    ∧ parse_tile_xy "a_b_7_8.pbf" = some (7, 8)
    ∧ parse_tile_xy "nounderscore.pbf" = none := by
  refine ⟨?_, by decide, by decide, by decide⟩
  intro fileName layer rest x y h
  simp [read_pbf, h]

/-- Witness for filename_tile_xy_fixed_zoom at a concrete input. -/
theorem filename_tile_xy_fixed_zoom_witness :
    read_pbf "station_users_123_456.pbf" (.success [{ extent := 4096, features := [] }])
      = read_features 123 456 4096 15 [] :=
  filename_tile_xy_fixed_zoom.1 "station_users_123_456.pbf" _ [] 123 456 (by decide)

/-- C5: load_all_pbf_files returns exactly the concatenation, in file
iteration order, of the record sequences of the matching files whose
decode returned a non-null result (a failed decode contributes nothing),
and its file-count diagnostic equals the number of matching files. -/
theorem load_all_concatenation (dir : List (String × DecodeOutcome)) :
    (load_all_pbf_files dir).1
      = (dir.filter fun e => is_pbf_name e.1).foldr
          (fun e acc => (read_pbf e.1 e.2).getD [] ++ acc) []
    ∧ (load_all_pbf_files dir).2 = (dir.filter fun e => is_pbf_name e.1).length := by
  induction dir with
  | nil => exact ⟨rfl, rfl⟩
  | cons e rest ih =>
    obtain ⟨name, d⟩ := e
    by_cases hp : is_pbf_name name
    · cases hr : read_pbf name d with
      | none => simp [load_all_pbf_files, hp, hr, List.filter_cons, ih.1, ih.2]
      | some features => simp [load_all_pbf_files, hp, hr, List.filter_cons, ih.1, ih.2]
    · simp [load_all_pbf_files, hp, List.filter_cons, ih.1, ih.2]

/-- C7: a directory in which no file name ends with '.pbf', or in which
every matching file fails to decode, yields the empty collection, without
any error. -/
theorem load_all_empty_on_no_matches (dir : List (String × DecodeOutcome))
    (h : ∀ e ∈ dir, is_pbf_name e.1 = false ∨ read_pbf e.1 e.2 = none) :
    (load_all_pbf_files dir).1 = [] := by
  induction dir with
  | nil => rfl
  | cons e rest ih =>
    obtain ⟨name, d⟩ := e
    have hrest : (load_all_pbf_files rest).1 = [] :=
      ih fun e he => h e (List.mem_cons_of_mem _ he)
    rcases h (name, d) (List.mem_cons_self _ _) with hp | hr
    · simp [load_all_pbf_files, hp, hrest]
    · by_cases hp : is_pbf_name name
      · simp [load_all_pbf_files, hp, hr, hrest]
      · simp [load_all_pbf_files, hp, hrest]

/-- Witness for load_all_empty_on_no_matches: one non-matching file and
one matching file whose bytes fail to decode give the empty collection. -/
theorem load_all_empty_witness :
    (load_all_pbf_files [("notes.txt", .success []), ("bad_1_2.pbf", .failure)]).1 = [] := by
  refine load_all_empty_on_no_matches _ ?_
  intro e he
  rcases List.mem_cons.mp he with h | h
  · subst h; exact Or.inl (by decide)
  · rcases List.mem_cons.mp h with h | h
    · subst h; exact Or.inr rfl
    · cases h

/-- C2: for a kept feature the extracted local coordinate is the
coordinate pair itself for a Point, the first pair for a LineString, and
the first pair of the first (outer) ring for a Polygon; a feature of any
other geometry type produces zero records and processing of the remaining
features continues (the warning is only a diagnostic). -/
theorem geometry_first_coordinate_policy (x y extent : ℤ) (z : ℕ) (props : Props)
    (nm : PropValue) (fs : List Feature) (hext : extent ≠ 0)
    (hname : props.lookup "S12_001_ja" = some nm) :
    (∀ c : ℤ × ℤ,
        read_features x y extent z ({ properties := props, geometry := .point c } :: fs)
          = (read_features x y extent z fs).map fun rest =>
              { name := nm, passengers := (props.lookup "S12_009").getD (.num 0),
                location := feature_location x y extent z c } :: rest)
    ∧ (∀ (c : ℤ × ℤ) (cs : List (ℤ × ℤ)),
        read_features x y extent z ({ properties := props, geometry := .lineString (c :: cs) } :: fs)
          = (read_features x y extent z fs).map fun rest =>
              { name := nm, passengers := (props.lookup "S12_009").getD (.num 0),
                location := feature_location x y extent z c } :: rest)
    ∧ (∀ (c : ℤ × ℤ) (ring : List (ℤ × ℤ)) (rings : List (List (ℤ × ℤ))),
        read_features x y extent z
            ({ properties := props, geometry := .polygon ((c :: ring) :: rings) } :: fs)
          = (read_features x y extent z fs).map fun rest =>
              { name := nm, passengers := (props.lookup "S12_009").getD (.num 0),
                location := feature_location x y extent z c } :: rest)
    ∧ (∀ typeName : String,
        read_features x y extent z ({ properties := props, geometry := .other typeName } :: fs)
          = read_features x y extent z fs) := by
  refine ⟨?_, ?_, ?_, ?_⟩ <;> intro c
  case _ =>
    simp only [read_features, hname, extract_coords, hext, if_false]
    cases read_features x y extent z fs <;> rfl
  case _ =>
    intro cs
    simp only [read_features, hname, extract_coords, hext, if_false]
    cases read_features x y extent z fs <;> rfl
  case _ =>
    intro ring rings
    simp only [read_features, hname, extract_coords, hext, if_false]
    cases read_features x y extent z fs <;> rfl
  case _ =>
    simp only [read_features, hname, extract_coords]

/-- Witness for geometry_first_coordinate_policy: a Point feature carrying
the station-name key yields exactly its own coordinate pair. -/
theorem geometry_first_coordinate_policy_witness :
    read_features 0 0 4096 15
        [{ properties := [("S12_001_ja", PropValue.str "A")], geometry := .point (1, 2) }]
      = some [{ name := PropValue.str "A", passengers := PropValue.num 0,
                location := feature_location 0 0 4096 15 (1, 2) }] := by
  have h := (geometry_first_coordinate_policy 0 0 4096 15
      [("S12_001_ja", PropValue.str "A")] (PropValue.str "A") [] (by decide) (by decide)).1 (1, 2)
  simpa using h

/-- C3: a feature produces a record exactly when its properties contain
'S12_001_ja' (so at most one record per feature, and at most as many
records as features, in feature order), and a kept record's passenger
count is the value of 'S12_009' with default 0. -/
theorem feature_filtering_and_order (x y extent : ℤ) (z : ℕ) :
    (∀ (feats : List Feature) (l : List StationRecord),
        read_features x y extent z feats = some l →
          l = feats.filterMap (kept_record x y extent z) ∧ l.length ≤ feats.length)
    ∧ (∀ (f : Feature) (fs : List Feature), f.properties.lookup "S12_001_ja" = none →
        read_features x y extent z (f :: fs) = read_features x y extent z fs)
    ∧ (∀ (f : Feature) (nm : PropValue) (c : ℤ × ℤ),
        f.properties.lookup "S12_001_ja" = some nm → extract_coords f.geometry = .ok c →
        kept_record x y extent z f
          = some { name := nm, passengers := (f.properties.lookup "S12_009").getD (.num 0),
                   location := feature_location x y extent z c }) := by
  refine ⟨?_, ?_, ?_⟩
  · intro feats
    induction feats with
    | nil =>
      intro l hl
      simp only [read_features, Option.some_inj] at hl
      simp [← hl]
    | cons f fs ih =>
      intro l hl
      cases hname : f.properties.lookup "S12_001_ja" with
      | none =>
        simp only [read_features, hname] at hl
        obtain ⟨h1, h2⟩ := ih l hl
        refine ⟨?_, h2.trans (Nat.le_succ _)⟩
        simp [List.filterMap_cons, kept_record, hname, h1]
      | some nm =>
        cases hg : extract_coords f.geometry with
        | exn =>
          simp only [read_features, hname, hg] at hl
          exact Option.noConfusion hl
        | skip =>
          simp only [read_features, hname, hg] at hl
          obtain ⟨h1, h2⟩ := ih l hl
          refine ⟨?_, h2.trans (Nat.le_succ _)⟩
          have hk : kept_record x y extent z f = none := by
            simp [kept_record, hname, hg]
          simp [List.filterMap_cons, hk, h1]
        | ok c =>
          by_cases hext : extent = 0
          · simp only [read_features, hname, hg, hext, if_true] at hl
            exact Option.noConfusion hl
          · cases hrest : read_features x y extent z fs with
            | none =>
              simp only [read_features, hname, hg, hext, if_false, hrest] at hl
              exact Option.noConfusion hl
            | some rest =>
              simp only [read_features, hname, hg, hext, if_false, hrest,
                Option.some_inj] at hl
              obtain ⟨h1, h2⟩ := ih rest hrest
              have hk : kept_record x y extent z f
                  = some { name := nm,
                           passengers := (f.properties.lookup "S12_009").getD (.num 0),
                           location := feature_location x y extent z c } := by
                simp [kept_record, hname, hg]
              refine ⟨?_, ?_⟩
              · simp [← hl, List.filterMap_cons, hk, h1]
              · simpa [← hl] using Nat.succ_le_succ h2
  · intro f fs h
    simp only [read_features, h]
  · intro f nm c h hg
    simp [kept_record, h, hg]

/-- Witness for feature_filtering_and_order: a one-feature layer whose
feature carries the name key produces exactly its record. -/
theorem feature_filtering_and_order_witness :
    ([{ name := PropValue.str "B", passengers := PropValue.num 0,
        location := feature_location 0 0 4096 15 (3, 4) }] : List StationRecord)
      = [({ properties := [("S12_001_ja", PropValue.str "B")],
            geometry := .point (3, 4) } : Feature)].filterMap (kept_record 0 0 4096 15)
    ∧ ([{ name := PropValue.str "B", passengers := PropValue.num 0,
          location := feature_location 0 0 4096 15 (3, 4) }] : List StationRecord).length
        ≤ [({ properties := [("S12_001_ja", PropValue.str "B")],
              geometry := .point (3, 4) } : Feature)].length :=
  (feature_filtering_and_order 0 0 4096 15).1
    [{ properties := [("S12_001_ja", PropValue.str "B")], geometry := .point (3, 4) }]
    [{ name := PropValue.str "B", passengers := PropValue.num 0,
       location := feature_location 0 0 4096 15 (3, 4) }] rfl

theorem foldl_min_le_start (l : List ℚ) (a : ℚ) : l.foldl min a ≤ a := by
  induction l generalizing a with
  | nil => exact le_refl a
  | cons x xs ih => exact (ih (min a x)).trans (min_le_left a x)

theorem foldl_min_le_mem {l : List ℚ} {x : ℚ} (hx : x ∈ l) (a : ℚ) : l.foldl min a ≤ x := by
  induction l generalizing a with
  | nil => cases hx
  | cons y ys ih =>
    rcases List.mem_cons.mp hx with h | h
    · subst h
      exact (foldl_min_le_start ys (min a x)).trans (min_le_right a x)
    · exact ih h (min a y)

theorem foldl_min_choice (l : List ℚ) (a : ℚ) : l.foldl min a = a ∨ l.foldl min a ∈ l := by
  induction l generalizing a with
  | nil => exact Or.inl rfl
  | cons x xs ih =>
    rcases ih (min a x) with h | h
    · rcases min_choice a x with h2 | h2
      · exact Or.inl (by rw [List.foldl_cons, h, h2])
      · exact Or.inr (by rw [List.foldl_cons, h, h2]; exact List.mem_cons_self _ _)
    · exact Or.inr (List.mem_cons_of_mem _ h)

theorem le_foldl_max_start (l : List ℚ) (a : ℚ) : a ≤ l.foldl max a := by
  induction l generalizing a with
  | nil => exact le_refl a
  | cons x xs ih => exact (le_max_left a x).trans (ih (max a x))

theorem mem_le_foldl_max {l : List ℚ} {x : ℚ} (hx : x ∈ l) (a : ℚ) : x ≤ l.foldl max a := by
  induction l generalizing a with
  | nil => cases hx
  | cons y ys ih =>
    rcases List.mem_cons.mp hx with h | h
    · subst h
      exact (le_max_right a x).trans (le_foldl_max_start ys (max a x))
    · exact ih h (max a y)

theorem foldl_max_choice (l : List ℚ) (a : ℚ) : l.foldl max a = a ∨ l.foldl max a ∈ l := by
  induction l generalizing a with
  | nil => exact Or.inl rfl
  | cons x xs ih =>
    rcases ih (max a x) with h | h
    · rcases max_choice a x with h2 | h2
      · exact Or.inl (by rw [List.foldl_cons, h, h2])
      · exact Or.inr (by rw [List.foldl_cons, h, h2]; exact List.mem_cons_self _ _)
    · exact Or.inr (List.mem_cons_of_mem _ h)

theorem min_passengers_le {counts : List ℚ} {p : ℚ} (hp : p ∈ counts) :
    min_passengers counts ≤ p := by
  cases counts with
  | nil => cases hp
  | cons q ps =>
    rcases List.mem_cons.mp hp with h | h
    · subst h; exact foldl_min_le_start ps p
    · exact foldl_min_le_mem h q

theorem le_max_passengers {counts : List ℚ} {p : ℚ} (hp : p ∈ counts) :
    p ≤ max_passengers counts := by
  cases counts with
  | nil => cases hp
  | cons q ps =>
    rcases List.mem_cons.mp hp with h | h
    · subst h; exact le_foldl_max_start ps p
    · exact mem_le_foldl_max h q

theorem min_passengers_mem {counts : List ℚ} (h : counts ≠ []) :
    min_passengers counts ∈ counts := by
  cases counts with
  | nil => exact absurd rfl h
  | cons q ps =>
    rcases foldl_min_choice ps q with h2 | h2
    · rw [min_passengers, h2]; exact List.mem_cons_self _ _
    · exact List.mem_cons_of_mem _ h2

theorem max_passengers_mem {counts : List ℚ} (h : counts ≠ []) :
    max_passengers counts ∈ counts := by
  cases counts with
  | nil => exact absurd rfl h
  | cons q ps =>
    rcases foldl_max_choice ps q with h2 | h2
    · rw [max_passengers, h2]; exact List.mem_cons_self _ _
    · exact List.mem_cons_of_mem _ h2

/-- C9: when the observed passenger counts are not all equal, every
marker radius is 5 + (count - min) / (max - min) * 15, so the minimum
count maps to radius 5, the maximum to radius 20, and counts
[0, 50, 100] map to radii [5, 12.5, 20]. -/
theorem marker_radius_linear_scaling (counts : List ℚ) (hne : counts ≠ [])
    (hd : ∃ a ∈ counts, ∃ b ∈ counts, a ≠ b) :
    marker_sizes counts
      = counts.map (fun p =>
          5 + (p - min_passengers counts)
              / (max_passengers counts - min_passengers counts) * 15)
    ∧ (∀ p ∈ counts, p = min_passengers counts →
        marker_size (min_passengers counts) (max_passengers counts) p = 5)
    ∧ (∀ p ∈ counts, p = max_passengers counts →
        marker_size (min_passengers counts) (max_passengers counts) p = 20)
    ∧ marker_sizes [0, 50, 100] = [5, 25 / 2, 20] := by
  obtain ⟨a, ha, b, hb, hab⟩ := hd
  have hlt : min_passengers counts < max_passengers counts := by
    rcases lt_or_gt_of_ne hab with h | h
    · exact lt_of_le_of_lt (min_passengers_le ha) (lt_of_lt_of_le h (le_max_passengers hb))
    · exact lt_of_le_of_lt (min_passengers_le hb) (lt_of_lt_of_le h (le_max_passengers ha))
  have hne0 : max_passengers counts - min_passengers counts ≠ 0 :=
    sub_ne_zero.mpr hlt.ne'
  refine ⟨rfl, ?_, ?_, ?_⟩
  · intro p _ hpm
    subst hpm
    simp [marker_size]
  · intro p _ hpM
    subst hpM
    rw [marker_size, div_self hne0]
    norm_num
  · norm_num [marker_sizes, marker_size, min_passengers, max_passengers]

/-- Witness for marker_radius_linear_scaling at counts [0, 50, 100]. -/
theorem marker_radius_linear_scaling_witness :
    marker_sizes [0, 50, 100] = [5, 25 / 2, 20] :=
  (marker_radius_linear_scaling [0, 50, 100] (by simp)
    ⟨0, by simp, 100, by simp, by norm_num⟩).2.2.2

/-- C10: on a non-empty collection whose passenger counts are all equal
(for example a single record), the divisor max - min of the marker-size
computation is 0, and the computation divides by that zero divisor with
no guard, so the linear-scaling rule is undefined there. -/
theorem marker_size_divisor_zero (counts : List ℚ) (hne : counts ≠ [])
    (heq : ∀ a ∈ counts, ∀ b ∈ counts, a = b) :
    max_passengers counts - min_passengers counts = 0
    ∧ marker_sizes counts
        = counts.map fun p => 5 + (p - min_passengers counts) / 0 * 15 := by
  have h1 : max_passengers counts = min_passengers counts :=
    heq _ (max_passengers_mem hne) _ (min_passengers_mem hne)
  have h0 : max_passengers counts - min_passengers counts = 0 := by
    rw [h1, sub_self]
  refine ⟨h0, ?_⟩
  simp only [marker_sizes]
  refine List.map_congr_left fun p _ => ?_
  rw [marker_size, h0]

/-- Witness for marker_size_divisor_zero: a single record makes the
marker-size divisor zero. -/
theorem marker_size_divisor_zero_witness :
    max_passengers [7] - min_passengers [7] = 0
    ∧ marker_sizes [7] = [(7 : ℚ)].map fun p => 5 + (p - min_passengers [7]) / 0 * 15 :=
  marker_size_divisor_zero [7] (by simp)
    (fun a ha b hb => by rw [List.mem_singleton.mp ha, List.mem_singleton.mp hb])

theorem exp_quarter_lower (t : ℝ) (ht : 0 ≤ t) : (1 + t / 4) ^ 4 ≤ Real.exp t := by
  have h1 : 1 + t / 4 ≤ Real.exp (t / 4) := by
    have := Real.add_one_le_exp (t / 4)
    linarith
  have h2 : (0 : ℝ) ≤ 1 + t / 4 := by linarith
  calc (1 + t / 4) ^ 4 ≤ Real.exp (t / 4) ^ 4 := pow_le_pow_left h2 h1 4
    _ = Real.exp (((4 : ℕ) : ℝ) * (t / 4)) := (Real.exp_nat_mul _ 4).symm
    _ = Real.exp t := by rw [show ((4 : ℕ) : ℝ) * (t / 4) = t by push_cast; ring]

theorem exp_quarter_upper (t : ℝ) (ht : 0 ≤ t) (ht4 : t < 4) :
    Real.exp t ≤ ((1 - t / 4)⁻¹) ^ 4 := by
  have hpos : (0 : ℝ) < 1 - t / 4 := by linarith
  have hexp : (0 : ℝ) < Real.exp (t / 4) := Real.exp_pos _
  have h1 : 1 - t / 4 ≤ (Real.exp (t / 4))⁻¹ := by
    have h := Real.add_one_le_exp (-(t / 4))
    rw [Real.exp_neg] at h
    linarith
  have h2 : Real.exp (t / 4) ≤ (1 - t / 4)⁻¹ := by
    have hmul : (1 - t / 4) * Real.exp (t / 4) ≤ 1 := by
      have := mul_le_mul_of_nonneg_right h1 hexp.le
      rwa [inv_mul_cancel₀ (ne_of_gt hexp)] at this
    rw [inv_eq_one_div, le_div_iff hpos]
    linarith [hmul]
  calc Real.exp t = Real.exp (((4 : ℕ) : ℝ) * (t / 4)) := by
        rw [show ((4 : ℕ) : ℝ) * (t / 4) = t by push_cast; ring]
    _ = Real.exp (t / 4) ^ 4 := Real.exp_nat_mul _ 4
    _ ≤ ((1 - t / 4)⁻¹) ^ 4 := pow_le_pow_left hexp.le h2 4

theorem exp_three_gt : (20.0855368 : ℝ) < Real.exp 3 := by
  have h1 : Real.exp 3 = Real.exp 1 ^ 3 := by
    rw [← Real.exp_nat_mul]
    norm_num
  rw [h1]
  have h2 : (2.7182818283 : ℝ) < Real.exp 1 := Real.exp_one_gt_d9
  calc (20.0855368 : ℝ) < 2.7182818283 ^ 3 := by norm_num
    _ < Real.exp 1 ^ 3 := by gcongr

theorem exp_three_lt : Real.exp 3 < 20.08553693 := by
  have h1 : Real.exp 3 = Real.exp 1 ^ 3 := by
    rw [← Real.exp_nat_mul]
    norm_num
  rw [h1]
  have h2 : Real.exp 1 < 2.7182818286 := Real.exp_one_lt_d9
  calc Real.exp 1 ^ 3 < 2.7182818286 ^ 3 := by gcongr
    _ < 20.08553693 := by norm_num

theorem exp_pi_gt : (23.084 : ℝ) < Real.exp π := by
  have hsplit : Real.exp π = Real.exp 3 * Real.exp (π - 3) := by
    rw [← Real.exp_add]
    norm_num
  have hmono : Real.exp 0.141592 ≤ Real.exp (π - 3) :=
    Real.exp_le_exp.mpr (by have := Real.pi_gt_d6; norm_num at this ⊢; linarith)
  have hlow : ((1 : ℝ) + 0.141592 / 4) ^ 4 ≤ Real.exp 0.141592 :=
    exp_quarter_lower _ (by norm_num)
  have h4 : ((1 : ℝ) + 0.141592 / 4) ^ 4 ≤ Real.exp (π - 3) := hlow.trans hmono
  have h3 := exp_three_gt
  rw [hsplit]
  calc (23.084 : ℝ) < 20.0855368 * (((1 : ℝ) + 0.141592 / 4) ^ 4) := by norm_num
    _ ≤ Real.exp 3 * Real.exp (π - 3) :=
        mul_le_mul h3.le h4 (by positivity) (Real.exp_pos 3).le

theorem exp_pi_lt : Real.exp π < 23.2003 := by
  have hsplit : Real.exp π = Real.exp 3 * Real.exp (π - 3) := by
    rw [← Real.exp_add]
    norm_num
  have hmono : Real.exp (π - 3) ≤ Real.exp 0.141593 :=
    Real.exp_le_exp.mpr (by have := Real.pi_lt_d6; norm_num at this ⊢; linarith)
  have hup : Real.exp 0.141593 ≤ (((1 : ℝ) - 0.141593 / 4)⁻¹) ^ 4 :=
    exp_quarter_upper _ (by norm_num) (by norm_num)
  have h4 : Real.exp (π - 3) ≤ (((1 : ℝ) - 0.141593 / 4)⁻¹) ^ 4 := hmono.trans hup
  have h3 := exp_three_lt
  rw [hsplit]
  calc Real.exp 3 * Real.exp (π - 3)
      ≤ 20.08553693 * ((((1 : ℝ) - 0.141593 / 4)⁻¹) ^ 4) :=
        mul_le_mul h3.le h4 (Real.exp_pos _).le (by norm_num)
    _ < 23.2003 := by norm_num

theorem sinh_pi_gt : (11.51 : ℝ) < Real.sinh π := by
  rw [Real.sinh_eq]
  have h1 := exp_pi_gt
  have h2 : Real.exp (-π) < 0.05 := by
    have h3 : Real.exp (-π) ≤ Real.exp (-3) :=
      Real.exp_le_exp.mpr (by have := Real.pi_gt_three; linarith)
    have h4 : Real.exp (-3) < 0.05 := by
      rw [Real.exp_neg, inv_eq_one_div]
      have h5 := exp_three_gt
      have h6 : (1 : ℝ) / Real.exp 3 < 1 / 20 := by
        apply one_div_lt_one_div_of_lt (by norm_num)
        linarith
      linarith
    linarith
  linarith

theorem sinh_pi_lt : Real.sinh π < 11.601 := by
  rw [Real.sinh_eq]
  have h1 := exp_pi_lt
  have h2 := Real.exp_pos (-π)
  linarith

theorem arctan_lt_of_pos {t : ℝ} (h0 : 0 < t) (h2 : t < π / 2) : Real.arctan t < t := by
  have h3 : t < Real.tan t := Real.lt_tan h0 h2
  have h4 : Real.arctan t < Real.arctan (Real.tan t) := Real.arctan_strictMono h3
  rwa [Real.arctan_tan (by linarith [Real.pi_pos]) h2] at h4

theorem mul_cos_lt_arctan {u : ℝ} (h0 : 0 < u) (h1 : u ≤ 1) :
    u * Real.cos u < Real.arctan u := by
  have hpi : (3 : ℝ) < π := Real.pi_gt_three
  have hu2 : u < π / 2 := by linarith
  have hcos_pos : 0 < Real.cos u := Real.cos_pos_of_mem_Ioo ⟨by linarith, hu2⟩
  have hcos_lt1 : Real.cos u < 1 := by
    have h := Real.cos_lt_cos_of_nonneg_of_le_pi (le_refl 0) (by linarith) h0
    rwa [Real.cos_zero] at h
  have hc_pos : 0 < u * Real.cos u := mul_pos h0 hcos_pos
  have hc_lt_u : u * Real.cos u < u := by nlinarith
  have hc_pi2 : u * Real.cos u < π / 2 := by linarith
  have hcos_c_pos : 0 < Real.cos (u * Real.cos u) :=
    Real.cos_pos_of_mem_Ioo ⟨by linarith, hc_pi2⟩
  have hcos_uc : Real.cos u < Real.cos (u * Real.cos u) :=
    Real.cos_lt_cos_of_nonneg_of_le_pi hc_pos.le (by linarith) hc_lt_u
  have hsin_c : Real.sin (u * Real.cos u) < u * Real.cos u := Real.sin_lt hc_pos
  have htan : Real.tan (u * Real.cos u) < u := by
    rw [Real.tan_eq_sin_div_cos, div_lt_iff hcos_c_pos]
    nlinarith
  have h5 : Real.arctan (Real.tan (u * Real.cos u)) < Real.arctan u :=
    Real.arctan_strictMono htan
  rwa [Real.arctan_tan (by linarith [Real.pi_pos]) hc_pi2] at h5

theorem lat_corner_bound : |degrees (Real.arctan (Real.sinh π)) - 85.0511| < 0.05 := by
  have hy1 : (11.51 : ℝ) < Real.sinh π := sinh_pi_gt
  have hy2 : Real.sinh π < 11.601 := sinh_pi_lt
  set y := Real.sinh π with hy
  have hy_pos : (0 : ℝ) < y := by linarith
  have hpi_lo : (3.141592 : ℝ) < π := Real.pi_gt_d6
  have hpi_hi : π < 3.141593 := Real.pi_lt_d6
  have hu_lo : (0.0861 : ℝ) < y⁻¹ := by
    rw [inv_eq_one_div, lt_div_iff hy_pos]
    linarith
  have hu_hi : y⁻¹ < 0.0869 := by
    rw [inv_eq_one_div, div_lt_iff hy_pos]
    linarith
  have hu_pos : (0 : ℝ) < y⁻¹ := inv_pos.mpr hy_pos
  have hu_le1 : y⁻¹ ≤ 1 := by linarith
  have hid : Real.arctan y = π / 2 - Real.arctan y⁻¹ := by
    have h := Real.arctan_inv_of_pos hy_pos
    linarith
  have ha_up : Real.arctan y⁻¹ < y⁻¹ := arctan_lt_of_pos hu_pos (by linarith)
  have ha_lo : y⁻¹ * Real.cos y⁻¹ < Real.arctan y⁻¹ := mul_cos_lt_arctan hu_pos hu_le1
  have hcos_lb : (0.9962 : ℝ) < Real.cos y⁻¹ := by
    have h := Real.one_sub_sq_div_two_lt_cos (ne_of_gt hu_pos)
    nlinarith
  have hprod : (0.08565 : ℝ) < y⁻¹ * Real.cos y⁻¹ := by nlinarith
  have harctan_lo : π / 2 - y⁻¹ < Real.arctan y := by linarith
  have harctan_hi : Real.arctan y < π / 2 - y⁻¹ * Real.cos y⁻¹ := by linarith
  have hdeg : degrees (Real.arctan y) = Real.arctan y * 180 / π := rfl
  rw [abs_lt, hdeg]
  constructor
  · have hX : (85.0011 : ℝ) * π < Real.arctan y * 180 := by linarith
    have h2 : (85.0011 : ℝ) < Real.arctan y * 180 / π := by
      rw [lt_div_iff Real.pi_pos]
      exact hX
    linarith
  · have hX : Real.arctan y * 180 < (85.1011 : ℝ) * π := by linarith
    have h2 : Real.arctan y * 180 / π < (85.1011 : ℝ) := by
      rw [div_lt_iff Real.pi_pos]
      exact hX
    linarith

/-- C1: the transform applied to a feature's first coordinate yields
lon = (tileX + localX/extent) / 2^zoom * 360 - 180 and
lat = degrees(atan(sinh(pi * (1 - 2 * (tileY + localY/extent) / 2^zoom)))).
At zoom 0, tile (0,0), extent 1, the local corner (0,0) maps to
(-180, about 85.0511) and the corner (extent, extent) to
(180, about -85.0511). -/
theorem tile_transform_correct (tileX tileY : ℤ) (zoom : ℕ) (extent : ℤ)
    (localX localY : ℤ) (hext : 0 < extent) :
    feature_location tileX tileY extent zoom (localX, localY)
      = (((tileX : ℝ) + (localX : ℝ) / (extent : ℝ)) / 2 ^ zoom * 360 - 180,
         degrees (Real.arctan (Real.sinh
           (π * (1 - 2 * ((tileY : ℝ) + (localY : ℝ) / (extent : ℝ)) / 2 ^ zoom)))))
    ∧ (feature_location 0 0 1 0 (0, 0)).1 = -180
    ∧ |(feature_location 0 0 1 0 (0, 0)).2 - 85.0511| < 0.05
    ∧ (feature_location 0 0 1 0 (1, 1)).1 = 180
    ∧ |(feature_location 0 0 1 0 (1, 1)).2 + 85.0511| < 0.05 := by
  refine ⟨rfl, ?_, ?_, ?_, ?_⟩
  · norm_num [feature_location, tile_to_latlon]
  · have h : (feature_location 0 0 1 0 (0, 0)).2
        = degrees (Real.arctan (Real.sinh π)) := by
      norm_num [feature_location, tile_to_latlon]
    rw [h]
    exact lat_corner_bound
  · norm_num [feature_location, tile_to_latlon]
  · have h : (feature_location 0 0 1 0 (1, 1)).2
        = -degrees (Real.arctan (Real.sinh π)) := by
      have harg : π * (1 - 2 * (((0 : ℤ) : ℝ) + ((1 : ℤ) : ℝ) / ((1 : ℤ) : ℝ)) / 2 ^ (0 : ℕ))
          = -π := by norm_num
      simp only [feature_location, tile_to_latlon]
      rw [harg, Real.sinh_neg, Real.arctan_neg]
      simp [degrees, neg_div]
    rw [h]
    have h2 : (-degrees (Real.arctan (Real.sinh π)) + 85.0511 : ℝ)
        = -(degrees (Real.arctan (Real.sinh π)) - 85.0511) := by ring
    rw [h2, abs_neg]
    exact lat_corner_bound

/-- Witness for tile_transform_correct at zoom 0, tile (0,0), extent 1. -/
theorem tile_transform_correct_witness :
    (0 : ℤ) < 1 ∧ (feature_location 0 0 1 0 (0, 0)).1 = -180 :=
  ⟨by decide, (tile_transform_correct 0 0 0 1 0 0 (by decide)).2.1⟩

end PbfStationUsers
